import Mathlib

/-!
Verification of the R-style data-frame convenience layer
(`Interfaces/python/R/R/R.py`).

The repository's `data_frame.__getitem__` is an explicit stub (it prints its
arguments and performs no selection), so the dual-axis indexing semantics are
modelled from the specification's resolution algorithm (spec section 4.1).
The pieces that the source does implement — the arity guard at the top of
`__getitem__`, the `nrow`/`ncol` properties, `data_range` (a wrapper over
`numpy.quantile` at q = [0, 1]) and `pretty` — are embedded directly from the
source.  Machine numbers are modelled as `Int`/`Nat`/`ℚ`; Python strings as
`String` or `List Char`; a raised exception as an `Except` error value or a
dedicated outcome constructor.
-/

namespace RModel

/-- A table: ordered named columns of equal length, with optional row names
(spec section 3).  Cell values are modelled as integers. -/
structure Table where
  colNames : List String
  cols : List (List Int)
  rowNames : Option (List String)
deriving DecidableEq, Repr

/-- Row count of a table (length of its columns). -/
def nrowT (t : Table) : Nat := (t.cols.headD []).length

/-- Column count of a table. -/
def ncolT (t : Table) : Nat := t.cols.length

/-- The optional name sequence of an axis has the axis's extent. -/
def NamesLen (o : Option (List String)) (n : Nat) : Prop :=
  ∀ ns ∈ o.toList, ns.length = n

instance (o : Option (List String)) (n : Nat) : Decidable (NamesLen o n) := by
  unfold NamesLen; infer_instance

/-- Well-formedness of a table (spec section 3 invariants): the name list
matches the column list, all columns have equal length, row names (when
present) match the row count, and column names are unique. -/
def WF (t : Table) : Prop :=
  t.colNames.length = t.cols.length ∧
  (∀ c ∈ t.cols, c.length = nrowT t) ∧
  NamesLen t.rowNames (nrowT t) ∧
  t.colNames.Nodup

instance (t : Table) : Decidable (WF t) := by
  unfold WF; infer_instance

/-- Modelled from the spec: the selector language of spec section 3.  The
source only declares the empty marker class `omit` and a stub indexer, so the
selector forms are taken from the specification. -/
inductive Selector where
  | all
  | position (i : Nat)
  | positions (l : List Nat)
  | label (name : String)
  | labels (names : List String)
  | range (lo hi : Nat)
  | mask (m : List Bool)
  | omit (s : Selector)
deriving DecidableEq, Repr

/-- The distinct error kinds of spec sections 4.1 and 7. -/
inductive Err where
  | indexError
  | keyError
  | valueError
deriving DecidableEq, Repr

/-- Position of the first occurrence of a name in a name sequence. -/
def lookupIdx : List String → String → Option Nat
  | [], _ => none
  | y :: ys, name =>
    if y = name then some 0 else (lookupIdx ys name).map (· + 1)

/-- Look up a sequence of labels; an unknown label is a `keyError`. -/
def lookupLabels (ns : List String) : List String → Except Err (List Nat)
  | [] => .ok []
  | x :: xs =>
    match lookupIdx ns x with
    | none => .error .keyError
    | some j =>
      match lookupLabels ns xs with
      | .ok rest => .ok (j :: rest)
      | .error e => .error e

/-- Modelled from the spec: step 2 of the resolution algorithm of spec
section 4.1, absent from the source (the stub performs no resolution).
A selector on an axis with (optional) names `names` and extent `extent`
resolves to an ordered list of zero-based positions, or to one of the
distinct error kinds. -/
def resolve (names : Option (List String)) (extent : Nat) : Selector → Except Err (List Nat)
  | .all => .ok (List.range extent)
  | .position i => if i < extent then .ok [i] else .error .indexError
  | .positions l =>
    if l.all (fun i => i < extent) then .ok l else .error .indexError
  | .label name =>
    match names with
    | none => .error .keyError
    | some ns =>
      match lookupIdx ns name with
      | some j => .ok [j]
      | none => .error .keyError
  | .labels l =>
    match names with
    | none => .error .keyError
    | some ns => lookupLabels ns l
  | .range lo hi =>
    let ps := List.range' lo (hi - lo)
    if ps.all (fun i => i < extent) then .ok ps else .error .indexError
  | .mask m =>
    if m.length = extent then
      .ok ((List.range extent).filter (fun i => m.getD i false))
    else .error .valueError
  | .omit s =>
    match resolve names extent s with
    | .ok picked => .ok ((List.range extent).filter (fun i => decide (i ∉ picked)))
    | .error e => .error e

/-- Result of a selection (spec section 4.1 step 5): a single cell collapses
to a scalar, a single column to a plain sequence, anything else is a table. -/
inductive SelResult where
  | scalar (v : Int)
  | column (c : List Int)
  | table (t : Table)
deriving DecidableEq, Repr

/-- Modelled from the spec: steps 4 and 5 of the resolution algorithm of
spec section 4.1 — materialise the output from the resolved row positions
`rps` and column positions `cps`; a single resolved column collapses to a
sequence and a single cell to a scalar. -/
def materialize (t : Table) (rps cps : List Nat) : SelResult :=
  let newCols := cps.map (fun j => rps.map (fun i => (t.cols.getD j []).getD i 0))
  if cps.length = 1 then
    let col := newCols.headD []
    if rps.length = 1 then .scalar (col.headD 0) else .column col
  else
    .table
      { colNames := cps.map (fun j => t.colNames.getD j ""),
        cols := newCols,
        rowNames := t.rowNames.map (fun ns => rps.map (fun i => ns.getD i "")) }

/-- Modelled from the spec: the dual-axis indexer `select(table, row_selector,
col_selector)` of spec section 4.1, absent from the source (the stub prints
and returns `None`).  Columns are resolved before rows; either resolution
error aborts the whole operation. -/
def select (t : Table) (rowSel colSel : Selector) : Except Err SelResult :=
  match resolve (some t.colNames) (ncolT t) colSel with
  | .error e => .error e
  | .ok cps =>
    match resolve t.rowNames (nrowT t) rowSel with
    | .error e => .error e
    | .ok rps => .ok (materialize t rps cps)

/-- Modelled from the spec: the indexer with the table state threaded
explicitly, for the purity statements of spec sections 3 and 4.1 ("indexing
never mutates the source table").  The post-state is the untouched input
table. -/
def selectSt (t : Table) (rowSel colSel : Selector) : Except Err SelResult × Table :=
  (select t rowSel colSel, t)

instance {ε α : Type} [DecidableEq ε] [DecidableEq α] : DecidableEq (Except ε α) := fun x y =>
  match x, y with
  | .ok a, .ok b =>
    if h : a = b then .isTrue (by rw [h]) else .isFalse (fun hc => h (Except.ok.inj hc))
  | .error a, .error b =>
    if h : a = b then .isTrue (by rw [h]) else .isFalse (fun hc => h (Except.error.inj hc))
  | .ok _, .error _ => .isFalse (fun hc => Except.noConfusion hc)
  | .error _, .ok _ => .isFalse (fun hc => Except.noConfusion hc)

/-- The zero-row table with the same columns and (present/absent) row names
as `t`. -/
def zeroRow (t : Table) : Table :=
  { colNames := t.colNames,
    cols := t.cols.map (fun _ => ([] : List Int)),
    rowNames := t.rowNames.map (fun _ => ([] : List String)) }

/-- A Python argument passed to `data_frame.__getitem__`: either a tuple of
selectors or a non-tuple sized sequence of selectors (e.g. a list). -/
inductive PyArg where
  | tup (elems : List Selector)
  | seqArg (elems : List Selector)
deriving DecidableEq, Repr

/-- Whether `isinstance(arg, tuple)` holds. -/
def isTuple : PyArg → Bool
  | .tup _ => true
  | .seqArg _ => false

/-- The elements of the argument (`len`, `arg[0]`, `arg[1]` act on these). -/
def argElems : PyArg → List Selector
  | .tup es => es
  | .seqArg es => es

/-- The guard condition at the top of `data_frame.__getitem__` in the source:
`not isinstance(arg, tuple) and not len(arg) == 2`. -/
def getitemGuard (a : PyArg) : Bool :=
  (!(isTuple a)) && (!(argElems a).length == 2)

/-- Outcome of a call to the source's `__getitem__`: the raised plain
`Exception`, an `IndexError` from `arg[0]`/`arg[1]`, or the diagnostic prints
followed by the implicit `None` return. -/
inductive StubOutcome where
  | raisedException (msg : String)
  | raisedIndexError
  | printedAndNone (rows cols : Selector)
deriving DecidableEq, Repr

/-- The source's `data_frame.__getitem__` body: if the guard fires, raise
`Exception("Rows and columns must be supplied.")`; otherwise bind
`rows = arg[0]`, `cols = arg[1]` (an out-of-range tuple index raises
`IndexError`), print both and fall through, returning `None`. -/
def getitemStub (a : PyArg) : StubOutcome :=
  if getitemGuard a then .raisedException "Rows and columns must be supplied."
  else
    match (argElems a)[0]?, (argElems a)[1]? with
    | some r, some c => .printedAndNone r c
    | _, _ => .raisedIndexError

/-- The pandas `shape` of the underlying frame: (row count, column count). -/
def dfShape (t : Table) : Nat × Nat := (nrowT t, ncolT t)

/-- The source's `data_frame.nrow` property: `self.shape[0]`. -/
def dfNrow (t : Table) : Nat := (dfShape t).1

/-- The source's `data_frame.ncol` property: `self.shape[1]`. -/
def dfNcol (t : Table) : Nat := (dfShape t).2

/-- Reading the `nrow` property with the frame state threaded explicitly:
a property read returns the value and leaves the frame untouched. -/
def dfNrowSt (t : Table) : Nat × Table := (dfNrow t, t)

/-- Reading the `ncol` property with the frame state threaded explicitly. -/
def dfNcolSt (t : Table) : Nat × Table := (dfNcol t, t)

/-- `numpy.quantile` (default linear interpolation) on integer data, over
`ℚ`: sort ascending, take `h = q * (n - 1)`, and interpolate between the
floor and the following order statistic.  Empty input is `none` (numpy
produces no number). -/
def npQuantile (x : List Int) (q : ℚ) : Option ℚ :=
  if x = [] then none
  else
    let s := List.insertionSort (· ≤ ·) x
    let n := s.length
    let h : ℚ := q * ((n : ℚ) - 1)
    let lo : Nat := (Int.floor h).toNat
    let frac : ℚ := h - (lo : ℚ)
    some (((s.getD lo 0 : Int) : ℚ) +
      frac * (((s.getD (min (lo + 1) (n - 1)) 0 : Int) : ℚ) - ((s.getD lo 0 : Int) : ℚ)))

/-- The source's `data_range(x)`: `np.quantile(x, q=[0, 1])`, i.e. the pair
of the 0-quantile and the 1-quantile. -/
def data_range (x : List Int) : Option (List ℚ) :=
  match npQuantile x 0, npQuantile x 1 with
  | some a, some b => some [a, b]
  | _, _ => none

/-- The source's privacy test in `pretty`: `(x[0] == '_') | (x[-1] == '_')`,
on a Python string modelled as a character list; `none` when the string is
empty (Python raises `IndexError` there). -/
def pyPrivate (x : List Char) : Option Bool :=
  match x.head?, x.getLast? with
  | some a, some b => some (a == '_' || b == '_')
  | _, _ => none

/-- The padding step of `pretty`: `entry + ' ' * (entry_width - len(entry))`. -/
def prettyPad (entryWidth : Nat) (entry : List Char) : List Char :=
  entry ++ List.replicate (entryWidth - entry.length) ' '

/-- Length of the rendered line (the concatenation of its padded entries). -/
def lineLen (line : List (List Char)) : Nat := (line.map List.length).sum

/-- The printing loop of `pretty`.  Each printed line is kept as the list of
padded entries it concatenates; the accumulator `line` is the line under
construction, and the final `print(line)` always emits it. -/
def prettyLoop (width entryWidth : Nat) :
    List (List Char) → List (List Char) → List (List (List Char))
  | [], line => [line]
  | e :: es, line =>
    let padded := prettyPad entryWidth e
    if lineLen line + entryWidth ≤ width then
      prettyLoop width entryWidth es (line ++ [padded])
    else
      line :: prettyLoop width entryWidth es [padded]

/-- The source's `pretty(list_of_strings, width=80, hide_underscore=True)`:
returns `none` if Python raises (an empty string is indexed), otherwise the
printed lines (each as its list of padded entries) paired with the function's
return value, which is always `None`. -/
def pretty (l : List (List Char)) (width : Nat) (hideUnderscore : Bool) :
    Option (List (List (List Char)) × Option Unit) := do
  let toPrint ←
    if hideUnderscore then
      (l.mapM pyPrivate).map
        (fun ps => (l.zip ps).filterMap (fun p => if p.2 = false then some p.1 else none))
    else
      pure l
  if toPrint.length = 0 then
    pure ([], none)
  else
    let maxLen := (toPrint.map List.length).foldr max 0
    let entryWidth := maxLen + 2
    pure (prettyLoop width entryWidth toPrint [], none)

/-- Total form of `pyPrivate` for non-empty strings: begins or ends with an
underscore. -/
def pyPrivateT (x : List Char) : Bool :=
  (x.headD ' ' == '_') || (x.getLastD ' ' == '_')

/-- The strings `pretty` keeps under `hide_underscore=True`: those that
neither begin nor end with an underscore. -/
def keepNames (l : List (List Char)) : List (List Char) :=
  l.filter (fun x => !(pyPrivateT x))

/-- `np.max` of the kept string lengths, as computed by `pretty`. -/
def maxLenOf (l : List (List Char)) : Nat :=
  (l.map List.length).foldr max 0

lemma getD_eq_get {α : Type} (l : List α) (i : Nat) (d : α) (h : i < l.length) :
    l.getD i d = l[i] := by
  simp [List.getD_eq_getElem?_getD, List.getElem?_eq_getElem h]

lemma range_map_getD {α : Type} (l : List α) (d : α) :
    (List.range l.length).map (fun i => l.getD i d) = l := by
  apply List.ext_getElem
  · simp
  · intro i h1 h2
    simp only [List.getElem_map, List.getElem_range]
    exact getD_eq_get l i d h2

/-- Claim C1 (amended): for a well-formed table whose column count is not 1,
selecting all rows and all columns returns the table itself, unchanged in
content and shape.  (A one-column table instead collapses to its column
sequence, per the collapse rule of spec section 4.1 step 5.) -/
theorem claim1_select_all_all_identity (t : Table) (hwf : WF t) (hc : ncolT t ≠ 1) :
    select t .all .all = .ok (.table t) := by
  obtain ⟨hlen, hcols, hrows, -⟩ := hwf
  have hnc : ncolT t = t.colNames.length := hlen.symm
  have hstep : select t .all .all =
      .ok (materialize t (List.range (nrowT t)) (List.range (ncolT t))) := rfl
  rw [hstep]
  simp only [materialize]
  rw [if_neg (by simpa using hc)]
  have h1 : (List.range (ncolT t)).map (fun j => t.colNames.getD j "") = t.colNames := by
    rw [hnc]; exact range_map_getD t.colNames ""
  have h2 : (List.range (ncolT t)).map
      (fun j => (List.range (nrowT t)).map (fun i => (t.cols.getD j []).getD i 0)) = t.cols := by
    apply List.ext_getElem
    · simp [ncolT]
    · intro j hj1 hj2
      simp only [List.getElem_map, List.getElem_range]
      rw [getD_eq_get t.cols j [] hj2]
      have hl : t.cols[j].length = nrowT t := hcols _ (List.getElem_mem hj2)
      rw [← hl]
      exact range_map_getD t.cols[j] 0
  have h3 : t.rowNames.map (fun ns => (List.range (nrowT t)).map (fun i => ns.getD i ""))
      = t.rowNames := by
    cases hr : t.rowNames with
    | none => rfl
    | some ns =>
      have : ns.length = nrowT t := hrows ns (by simp [hr])
      simp only [Option.map_some']
      rw [← this, range_map_getD ns ""]
  rw [h1, h2, h3]

/-- Claim C1 witness: a concrete two-column table round-trips. -/
theorem claim1_select_all_all_identity_witness :
    WF ⟨["a", "b"], [[10, 20, 30], [1, 2, 3]], none⟩ ∧
    ncolT ⟨["a", "b"], [[10, 20, 30], [1, 2, 3]], none⟩ ≠ 1 ∧
    select ⟨["a", "b"], [[10, 20, 30], [1, 2, 3]], none⟩ .all .all =
      .ok (.table ⟨["a", "b"], [[10, 20, 30], [1, 2, 3]], none⟩) :=
  ⟨by decide, by decide,
    claim1_select_all_all_identity _ (by decide) (by decide)⟩

/-- Claim C1 counterexample: on a well-formed one-column table, `select`
with both selectors `All` collapses to the column sequence, not a table. -/
theorem claim1_counterexample :
    WF ⟨["a"], [[1, 2]], none⟩ ∧
    select ⟨["a"], [[1, 2]], none⟩ .all .all = .ok (.column [1, 2]) ∧
    select ⟨["a"], [[1, 2]], none⟩ .all .all ≠ .ok (.table ⟨["a"], [[1, 2]], none⟩) := by
  decide

/-- Claim C2: the source's arity guard `not isinstance(arg, tuple) and not
len(arg) == 2` does not fire on a three-element tuple of selectors — the stub
prints and returns `None` instead of raising — and when it does fire it
raises a plain `Exception`, not a `ValueError`. -/
theorem claim2_stub_guard_misses_triples :
    getitemGuard (.tup [.position 0, .position 1, .position 2]) = false ∧
    getitemStub (.tup [.position 0, .position 1, .position 2]) =
      .printedAndNone (.position 0) (.position 1) ∧
    getitemStub (.seqArg [.all]) =
      .raisedException "Rows and columns must be supplied." := by
  decide

lemma lookupIdx_lt (ns : List String) (name : String) (j : Nat)
    (h : lookupIdx ns name = some j) : j < ns.length := by
  induction ns generalizing j with
  | nil => simp [lookupIdx] at h
  | cons y ys ih =>
    simp only [lookupIdx] at h
    by_cases hy : y = name
    · rw [if_pos hy] at h
      cases h
      simp
    · rw [if_neg hy] at h
      obtain ⟨k, hk, hkj⟩ := Option.map_eq_some'.mp h
      have := ih k hk
      simp only [List.length_cons]
      omega

lemma lookupLabels_lt (ns : List String) (l : List String) (S : List Nat)
    (h : lookupLabels ns l = .ok S) : ∀ j ∈ S, j < ns.length := by
  induction l generalizing S with
  | nil =>
    simp only [lookupLabels] at h
    cases h
    simp
  | cons x xs ih =>
    simp only [lookupLabels] at h
    cases hx : lookupIdx ns x with
    | none => rw [hx] at h; cases h
    | some j =>
      rw [hx] at h
      cases hr : lookupLabels ns xs with
      | error e => rw [hr] at h; cases h
      | ok rest =>
        rw [hr] at h
        cases h
        intro i hi
        rcases List.mem_cons.mp hi with hi | hi
        · subst hi; exact lookupIdx_lt ns x i hx
        · exact ih rest hr i hi

/-- Every successfully resolved position is within the axis extent. -/
lemma resolve_ok_lt (names : Option (List String)) (extent : Nat) (s : Selector)
    (S : List Nat) (hn : NamesLen names extent) (h : resolve names extent s = .ok S) :
    ∀ i ∈ S, i < extent := by
  induction s generalizing S with
  | all =>
    simp only [resolve] at h
    cases h
    intro i hi
    exact List.mem_range.mp hi
  | position k =>
    simp only [resolve] at h
    by_cases hk : k < extent
    · rw [if_pos hk] at h
      cases h
      intro i hi
      rcases List.mem_singleton.mp hi with rfl
      exact hk
    · rw [if_neg hk] at h; cases h
  | positions l =>
    simp only [resolve] at h
    by_cases hl : l.all (fun i => i < extent) = true
    · rw [if_pos hl] at h
      cases h
      intro i hi
      simpa using List.all_eq_true.mp hl i hi
    · rw [if_neg hl] at h; cases h
  | label name =>
    cases hns : names with
    | none => rw [hns] at h; simp only [resolve] at h; cases h
    | some ns =>
      rw [hns] at h
      simp only [resolve] at h
      cases hx : lookupIdx ns name with
      | none => rw [hx] at h; cases h
      | some j =>
        rw [hx] at h
        cases h
        intro i hi
        rcases List.mem_singleton.mp hi with rfl
        have hjl := lookupIdx_lt ns name i hx
        have hlen := hn ns (by simp [hns])
        omega
  | labels l =>
    cases hns : names with
    | none => rw [hns] at h; simp only [resolve] at h; cases h
    | some ns =>
      rw [hns] at h
      simp only [resolve] at h
      intro i hi
      have hjl := lookupLabels_lt ns l S h i hi
      have hlen := hn ns (by simp [hns])
      omega
  | range lo hi =>
    simp only [resolve] at h
    by_cases hl : (List.range' lo (hi - lo)).all (fun i => i < extent) = true
    · rw [if_pos hl] at h
      cases h
      intro i hi2
      simpa using List.all_eq_true.mp hl i hi2
    · rw [if_neg hl] at h; cases h
  | mask m =>
    simp only [resolve] at h
    by_cases hm : m.length = extent
    · rw [if_pos hm] at h
      cases h
      intro i hi
      exact List.mem_range.mp (List.mem_filter.mp hi).1
    · rw [if_neg hm] at h; cases h
  | «omit» s ih =>
    simp only [resolve] at h
    cases hr : resolve names extent s with
    | error e => rw [hr] at h; cases h
    | ok picked =>
      rw [hr] at h
      cases h
      intro i hi
      exact List.mem_range.mp (List.mem_filter.mp hi).1

/-- Claim C3: for a selector `s` on an axis of extent `n` (whose name list,
when present, has length `n`) that resolves without duplicates to `S`,
`Omit(s)` resolves to exactly the complement of `S`: the two position sets
are disjoint and their union is `{0..n-1}`. -/
theorem claim3_omit_complement (names : Option (List String)) (n : Nat) (s : Selector)
    (S : List Nat) (hn : NamesLen names n) (hok : resolve names n s = .ok S)
    (_hnd : S.Nodup) :
    resolve names n (.omit s) = .ok ((List.range n).filter (fun i => decide (i ∉ S))) ∧
    (∀ i, (i ∈ (List.range n).filter (fun i => decide (i ∉ S)) ∨ i ∈ S) ↔ i < n) ∧
    ∀ i, ¬(i ∈ (List.range n).filter (fun i => decide (i ∉ S)) ∧ i ∈ S) := by
  have hsub := resolve_ok_lt names n s S hn hok
  refine ⟨?_, ?_, ?_⟩
  · simp only [resolve, hok]
  · intro i
    constructor
    · rintro (hmem | hmem)
      · exact List.mem_range.mp (List.mem_filter.mp hmem).1
      · exact hsub i hmem
    · intro hlt
      by_cases hiS : i ∈ S
      · exact Or.inr hiS
      · exact Or.inl (List.mem_filter.mpr ⟨List.mem_range.mpr hlt, decide_eq_true hiS⟩)
  · rintro i ⟨h1, h2⟩
    have hnot := of_decide_eq_true (List.mem_filter.mp h1).2
    exact hnot h2

/-- Claim C3 witness: `Position 1` on an unnamed axis of extent 3 resolves
to `[1]`; its complement under `Omit` is `[0, 2]`. -/
theorem claim3_omit_complement_witness :
    NamesLen none 3 ∧ resolve none 3 (.position 1) = .ok [1] ∧ ([1] : List Nat).Nodup ∧
    (resolve none 3 (.omit (.position 1)) =
        .ok ((List.range 3).filter (fun i => decide (i ∉ ([1] : List Nat)))) ∧
      (∀ i, (i ∈ (List.range 3).filter (fun i => decide (i ∉ ([1] : List Nat))) ∨
          i ∈ ([1] : List Nat)) ↔ i < 3) ∧
      ∀ i, ¬(i ∈ (List.range 3).filter (fun i => decide (i ∉ ([1] : List Nat))) ∧
          i ∈ ([1] : List Nat))) :=
  ⟨by decide, by decide, by decide,
    claim3_omit_complement none 3 (.position 1) [1] (by decide) (by decide) (by decide)⟩

/-- Claim C4: selecting row position `nrow(t)` (with all columns) on a
non-empty table is out of bounds and yields `IndexError`. -/
theorem claim4_position_nrow_index_error (t : Table) (_hne : 0 < nrowT t) :
    select t (.position (nrowT t)) .all = .error .indexError := by
  simp [select, resolve]

/-- Claim C4 witness. -/
theorem claim4_position_nrow_index_error_witness :
    0 < nrowT ⟨["a"], [[5]], none⟩ ∧
    select ⟨["a"], [[5]], none⟩ (.position (nrowT ⟨["a"], [[5]], none⟩)) .all =
      .error .indexError :=
  ⟨by decide, claim4_position_nrow_index_error _ (by decide)⟩

/-- Claim C5 (amended): `select(t, Range(3,3), All)` never raises: on a
well-formed table whose column count is not 1 it returns the zero-row table
with `t`'s columns; on a one-column table it collapses to the empty column
sequence.  In general a `Range(lo, hi)` with `lo > hi` resolves to the empty
position set rather than an error. -/
theorem claim5_empty_range (t u : Table) (hwf : WF t) (hc : ncolT t ≠ 1)
    (hcu : ncolT u = 1) (lo hi n : Nat) (names : Option (List String)) (hgt : lo > hi) :
    select t (.range 3 3) .all = .ok (.table (zeroRow t)) ∧
    select u (.range 3 3) .all = .ok (.column []) ∧
    resolve names n (.range lo hi) = .ok [] := by
  obtain ⟨hlen, -, -, -⟩ := hwf
  have hnc : ncolT t = t.colNames.length := hlen.symm
  refine ⟨?_, ?_, ?_⟩
  · have hstep : select t (.range 3 3) .all =
        .ok (materialize t [] (List.range (ncolT t))) := rfl
    rw [hstep]
    simp only [materialize, List.map_nil]
    rw [if_neg (by simpa using hc)]
    have h1 : (List.range (ncolT t)).map (fun j => t.colNames.getD j "") = t.colNames := by
      rw [hnc]; exact range_map_getD t.colNames ""
    have h2 : (List.range (ncolT t)).map (fun _ => ([] : List Int)) =
        t.cols.map (fun _ => ([] : List Int)) := by
      apply List.ext_getElem
      · simp [ncolT]
      · intro j hj1 hj2
        simp
    simp only [zeroRow]
    rw [h1, h2]
  · have hstep : select u (.range 3 3) .all =
        .ok (materialize u [] (List.range (ncolT u))) := rfl
    rw [hstep, hcu]
    rfl
  · have hsub : hi - lo = 0 := Nat.sub_eq_zero_of_le (le_of_lt hgt)
    simp [resolve, hsub]

/-- Claim C5 witness. -/
theorem claim5_empty_range_witness :
    WF ⟨["a", "b"], [[10, 20, 30], [1, 2, 3]], none⟩ ∧
    ncolT ⟨["a", "b"], [[10, 20, 30], [1, 2, 3]], none⟩ ≠ 1 ∧
    ncolT ⟨["a"], [[5]], none⟩ = 1 ∧
    (5 : Nat) > 2 ∧
    (select ⟨["a", "b"], [[10, 20, 30], [1, 2, 3]], none⟩ (.range 3 3) .all =
        .ok (.table (zeroRow ⟨["a", "b"], [[10, 20, 30], [1, 2, 3]], none⟩)) ∧
      select ⟨["a"], [[5]], none⟩ (.range 3 3) .all = .ok (.column []) ∧
      resolve none 7 (.range 5 2) = .ok []) :=
  ⟨by decide, by decide, by decide, by decide,
    claim5_empty_range _ _ (by decide) (by decide) (by decide) 5 2 7 none (by decide)⟩

/-- Claim C5 counterexample: on a well-formed one-column table the result of
`select(t, Range(3,3), All)` is the empty column sequence, not a zero-row
table, so the claim as stated (a table for every `t`) fails. -/
theorem claim5_counterexample :
    WF ⟨["a"], [[5]], none⟩ ∧
    select ⟨["a"], [[5]], none⟩ (.range 3 3) .all = .ok (.column []) ∧
    select ⟨["a"], [[5]], none⟩ (.range 3 3) .all ≠
      .ok (.table (zeroRow ⟨["a"], [[5]], none⟩)) := by
  decide

/-- Claim C6: the indexer is purely functional — with the table state
threaded explicitly, the post-state is the unchanged input table, and equal
inputs produce equal results. -/
theorem claim6_select_pure (t t2 : Table) (rs rs2 cs cs2 : Selector)
    (h1 : t = t2) (h2 : rs = rs2) (h3 : cs = cs2) :
    (selectSt t rs cs).2 = t ∧ selectSt t rs cs = selectSt t2 rs2 cs2 := by
  subst h1; subst h2; subst h3
  exact ⟨rfl, rfl⟩

/-- Claim C6 witness. -/
theorem claim6_select_pure_witness :
    (⟨["a"], [[1]], none⟩ : Table) = ⟨["a"], [[1]], none⟩ ∧
    Selector.all = Selector.all ∧
    Selector.label "a" = Selector.label "a" ∧
    ((selectSt ⟨["a"], [[1]], none⟩ .all (.label "a")).2 = ⟨["a"], [[1]], none⟩ ∧
      selectSt ⟨["a"], [[1]], none⟩ .all (.label "a") =
        selectSt ⟨["a"], [[1]], none⟩ .all (.label "a")) :=
  ⟨rfl, rfl, rfl, claim6_select_pure _ _ _ _ _ _ rfl rfl rfl⟩

/-- Claim C7: on the table with columns `a = [10,20,30]`, `b = [1,2,3]` and
no row names, `Omit(Position 1)` resolves the rows to `[0, 2]` (ascending),
`Label "a"` resolves the columns to `[0]`, and the selection yields the
one-column sequence `[10, 30]`. -/
theorem claim7_concrete_scenario :
    resolve (⟨["a", "b"], [[10, 20, 30], [1, 2, 3]], none⟩ : Table).rowNames
        (nrowT ⟨["a", "b"], [[10, 20, 30], [1, 2, 3]], none⟩)
        (.omit (.position 1)) = .ok [0, 2] ∧
    resolve (some (⟨["a", "b"], [[10, 20, 30], [1, 2, 3]], none⟩ : Table).colNames)
        (ncolT ⟨["a", "b"], [[10, 20, 30], [1, 2, 3]], none⟩)
        (.label "a") = .ok [0] ∧
    select ⟨["a", "b"], [[10, 20, 30], [1, 2, 3]], none⟩
        (.omit (.position 1)) (.label "a") = .ok (.column [10, 30]) := by
  decide

/-- Claim C8: `nrow` is the first component of the frame's shape (the row
count, which every column's length equals on a well-formed table), `ncol` is
the second (the column count), and reading either property leaves the frame
unchanged. -/
theorem claim8_nrow_ncol_shape (t : Table) (hwf : WF t) :
    dfNrow t = (dfShape t).1 ∧ dfNcol t = (dfShape t).2 ∧
    (∀ c ∈ t.cols, c.length = dfNrow t) ∧
    t.colNames.length = dfNcol t ∧
    dfNrowSt t = (dfNrow t, t) ∧ dfNcolSt t = (dfNcol t, t) := by
  obtain ⟨hlen, hcols, -, -⟩ := hwf
  exact ⟨rfl, rfl, hcols, hlen, rfl, rfl⟩

/-- Claim C8 witness. -/
theorem claim8_nrow_ncol_shape_witness :
    WF ⟨["a", "b"], [[10, 20, 30], [1, 2, 3]], none⟩ ∧
    (dfNrow ⟨["a", "b"], [[10, 20, 30], [1, 2, 3]], none⟩ =
        (dfShape ⟨["a", "b"], [[10, 20, 30], [1, 2, 3]], none⟩).1 ∧
      dfNcol ⟨["a", "b"], [[10, 20, 30], [1, 2, 3]], none⟩ =
        (dfShape ⟨["a", "b"], [[10, 20, 30], [1, 2, 3]], none⟩).2 ∧
      (∀ c ∈ (⟨["a", "b"], [[10, 20, 30], [1, 2, 3]], none⟩ : Table).cols,
        c.length = dfNrow ⟨["a", "b"], [[10, 20, 30], [1, 2, 3]], none⟩) ∧
      (⟨["a", "b"], [[10, 20, 30], [1, 2, 3]], none⟩ : Table).colNames.length =
        dfNcol ⟨["a", "b"], [[10, 20, 30], [1, 2, 3]], none⟩ ∧
      dfNrowSt ⟨["a", "b"], [[10, 20, 30], [1, 2, 3]], none⟩ =
        (dfNrow ⟨["a", "b"], [[10, 20, 30], [1, 2, 3]], none⟩,
          ⟨["a", "b"], [[10, 20, 30], [1, 2, 3]], none⟩) ∧
      dfNcolSt ⟨["a", "b"], [[10, 20, 30], [1, 2, 3]], none⟩ =
        (dfNcol ⟨["a", "b"], [[10, 20, 30], [1, 2, 3]], none⟩,
          ⟨["a", "b"], [[10, 20, 30], [1, 2, 3]], none⟩)) :=
  ⟨by decide, claim8_nrow_ncol_shape _ (by decide)⟩

lemma getLast?_mem (l : List Int) (M : Int) (h : l.getLast? = some M) : M ∈ l := by
  rw [List.getLast?_eq_getElem?] at h
  exact List.getElem?_mem h

lemma sorted_le_getLast (l : List Int) (hl : List.Sorted (· ≤ ·) l) (M : Int)
    (hM : l.getLast? = some M) : ∀ y ∈ l, y ≤ M := by
  induction l with
  | nil => cases hM
  | cons a tl ih =>
    obtain ⟨ha, hs⟩ := List.sorted_cons.mp hl
    cases tl with
    | nil =>
      intro y hy
      rcases List.mem_singleton.mp hy with rfl
      cases hM
      exact le_refl _
    | cons b tl2 =>
      rw [List.getLast?_cons_cons] at hM
      intro y hy
      rcases List.mem_cons.mp hy with rfl | hmem
      · exact ha M (getLast?_mem _ M hM)
      · exact ih hs hM y hmem

lemma npQuantile_zero (x : List Int) (hx : x ≠ []) :
    npQuantile x 0 = some (((List.insertionSort (· ≤ ·) x).getD 0 0 : Int) : ℚ) := by
  simp [npQuantile, hx]

lemma npQuantile_one (x : List Int) (hx : x ≠ []) :
    npQuantile x 1 = some (((List.insertionSort (· ≤ ·) x).getD
      ((List.insertionSort (· ≤ ·) x).length - 1) 0 : Int) : ℚ) := by
  have hperm : (List.insertionSort (· ≤ ·) x).Perm x := List.perm_insertionSort _ x
  have hs : List.insertionSort (· ≤ ·) x ≠ [] := by
    intro h
    rw [h] at hperm
    exact hx hperm.symm.eq_nil
  have hslen : 1 ≤ (List.insertionSort (· ≤ ·) x).length := List.length_pos.mpr hs
  simp only [npQuantile, if_neg hx]
  have h1 : (1 : ℚ) * (((List.insertionSort (· ≤ ·) x).length : ℚ) - 1) =
      (((List.insertionSort (· ≤ ·) x).length - 1 : ℕ) : ℚ) := by
    rw [one_mul, Nat.cast_sub hslen, Nat.cast_one]
  rw [h1, Int.floor_natCast, Int.toNat_natCast, sub_self, zero_mul, add_zero]

/-- Claim C9: on a non-empty integer sequence, `data_range` returns the
two-element sequence of the minimum and the maximum of the input. -/
theorem claim9_data_range_min_max (x : List Int) (hx : x ≠ []) :
    ∃ m M : Int, data_range x = some [(m : ℚ), (M : ℚ)] ∧ m ∈ x ∧ M ∈ x ∧
      ∀ y ∈ x, m ≤ y ∧ y ≤ M := by
  have hperm : (List.insertionSort (· ≤ ·) x).Perm x := List.perm_insertionSort _ x
  have hsort : List.Sorted (· ≤ ·) (List.insertionSort (· ≤ ·) x) :=
    List.sorted_insertionSort _ x
  have hs : List.insertionSort (· ≤ ·) x ≠ [] := by
    intro h
    rw [h] at hperm
    exact hx hperm.symm.eq_nil
  obtain ⟨M, hM⟩ : ∃ M, (List.insertionSort (· ≤ ·) x).getLast? = some M :=
    ⟨_, List.getLast?_eq_getLast _ hs⟩
  obtain ⟨a, tl, hcons⟩ := List.exists_cons_of_ne_nil hs
  refine ⟨a, M, ?_, ?_, ?_, ?_⟩
  · have hq0 := npQuantile_zero x hx
    have hq1 := npQuantile_one x hx
    have hd0 : (List.insertionSort (· ≤ ·) x).getD 0 0 = a := by rw [hcons]; rfl
    have hd1 : (List.insertionSort (· ≤ ·) x).getD
        ((List.insertionSort (· ≤ ·) x).length - 1) 0 = M := by
      rw [List.getD_eq_getElem?_getD, ← List.getLast?_eq_getElem?, hM]
      rfl
    rw [hd0] at hq0
    rw [hd1] at hq1
    simp [data_range, hq0, hq1]
  · exact hperm.mem_iff.mp (hcons ▸ List.mem_cons_self a tl)
  · exact hperm.mem_iff.mp (getLast?_mem _ M hM)
  · intro y hy
    have hys : y ∈ List.insertionSort (· ≤ ·) x := hperm.mem_iff.mpr hy
    constructor
    · obtain ⟨ha, -⟩ := List.sorted_cons.mp (hcons ▸ hsort)
      rcases List.mem_cons.mp (hcons ▸ hys) with rfl | hmem
      · exact le_refl _
      · exact ha y hmem
    · exact sorted_le_getLast _ hsort M hM y hys

/-- Claim C9 witness. -/
theorem claim9_data_range_min_max_witness :
    ([3, 1, 2] : List Int) ≠ [] ∧
    (∃ m M : Int, data_range [3, 1, 2] = some [(m : ℚ), (M : ℚ)] ∧
      m ∈ ([3, 1, 2] : List Int) ∧ M ∈ ([3, 1, 2] : List Int) ∧
      ∀ y ∈ ([3, 1, 2] : List Int), m ≤ y ∧ y ≤ M) :=
  ⟨by decide, claim9_data_range_min_max [3, 1, 2] (by decide)⟩

lemma pyPrivate_eq (x : List Char) (hx : x ≠ []) : pyPrivate x = some (pyPrivateT x) := by
  cases x with
  | nil => exact absurd rfl hx
  | cons a t =>
    have hg := List.getLast?_eq_getLast (a :: t) (List.cons_ne_nil a t)
    simp [pyPrivate, pyPrivateT, hg, List.getLastD_eq_getLast?]

lemma mapM_pyPrivate (l : List (List Char)) (h : ∀ x ∈ l, x ≠ []) :
    l.mapM pyPrivate = some (l.map pyPrivateT) := by
  induction l with
  | nil => rfl
  | cons a t ih =>
    rw [List.mapM_cons, pyPrivate_eq a (h a (by simp)),
      ih (fun x hx => h x (by simp [hx]))]
    rfl

lemma zip_filter_keep (l : List (List Char)) :
    (l.zip (l.map pyPrivateT)).filterMap
      (fun p => if p.2 = false then some p.1 else none) = keepNames l := by
  induction l with
  | nil => rfl
  | cons a t ih =>
    simp only [List.map_cons, List.zip_cons_cons, List.filterMap_cons]
    cases hp : pyPrivateT a with
    | false => simp [keepNames, List.filter_cons, hp, ih]
    | true => simp [keepNames, List.filter_cons, hp, ih]

lemma prettyLoop_flatten (w ew : Nat) (es : List (List Char)) (line : List (List Char)) :
    (prettyLoop w ew es line).flatten = line ++ es.map (prettyPad ew) := by
  induction es generalizing line with
  | nil => simp [prettyLoop]
  | cons e tl ih =>
    simp only [prettyLoop, List.map_cons]
    by_cases hc : lineLen line + ew ≤ w
    · rw [if_pos hc, ih]
      simp
    · rw [if_neg hc]
      simp [List.flatten_cons, ih]

/-- Claim C10: `pretty` with the default `hide_underscore=True` on non-empty
strings raises nothing and returns `None`; the printed entries are exactly
the padded strings that neither begin nor end with an underscore, in order;
and when every string begins or ends with an underscore nothing is printed. -/
theorem claim10_pretty_hides_underscores (l : List (List Char)) (h : ∀ x ∈ l, x ≠ []) :
    ∃ out : List (List (List Char)),
      pretty l 80 true = some (out, none) ∧
      out.flatten = (keepNames l).map (prettyPad (maxLenOf (keepNames l) + 2)) ∧
      ((∀ x ∈ l, pyPrivateT x = true) → out = []) := by
  have hmap := mapM_pyPrivate l h
  have hzip := zip_filter_keep l
  have hpretty : pretty l 80 true =
      (if (keepNames l).length = 0 then some ([], none)
       else some (prettyLoop 80 (maxLenOf (keepNames l) + 2) (keepNames l) [], none)) := by
    unfold pretty
    rw [if_pos rfl, hmap, Option.map_some', hzip]
    rfl
  by_cases hlen : (keepNames l).length = 0
  · refine ⟨[], ?_, ?_, fun _ => rfl⟩
    · rw [hpretty, if_pos hlen]
    · rw [List.length_eq_zero.mp hlen]
      rfl
  · refine ⟨prettyLoop 80 (maxLenOf (keepNames l) + 2) (keepNames l) [], ?_, ?_, ?_⟩
    · rw [hpretty, if_neg hlen]
    · rw [prettyLoop_flatten]
      rfl
    · intro hall
      exfalso
      apply hlen
      rw [List.length_eq_zero]
      unfold keepNames
      rw [List.filter_eq_nil_iff]
      intro a ha
      simp [hall a ha]

/-- Claim C10 witness: on `["ab", "_b", "cd", "e_"]` the kept entries are
`"ab"` and `"cd"`. -/
theorem claim10_pretty_hides_underscores_witness :
    (∀ x ∈ [['a', 'b'], ['_', 'b'], ['c', 'd'], ['e', '_']], x ≠ ([] : List Char)) ∧
    (∃ out : List (List (List Char)),
      pretty [['a', 'b'], ['_', 'b'], ['c', 'd'], ['e', '_']] 80 true = some (out, none) ∧
      out.flatten = (keepNames [['a', 'b'], ['_', 'b'], ['c', 'd'], ['e', '_']]).map
        (prettyPad (maxLenOf (keepNames [['a', 'b'], ['_', 'b'], ['c', 'd'], ['e', '_']]) + 2)) ∧
      ((∀ x ∈ [['a', 'b'], ['_', 'b'], ['c', 'd'], ['e', '_']], pyPrivateT x = true) →
        out = [])) :=
  ⟨by decide, claim10_pretty_hides_underscores _ (by decide)⟩

end RModel
